import Mathlib

/-!
Formal model of the spaced-repetition scheduling engine in
`src/book-learning/src/lib/srs.ts`.

JavaScript numbers are modelled by exact rationals (every constant in the
engine — 1.2, 2.5, 3, 0.15, 0.2, 1.3 — and every state reachable from them
stays well inside the range where double arithmetic agrees with exact
arithmetic on these operations).  The calendar arithmetic of
`Date.setDate` is modelled by proleptic-Gregorian civil-day arithmetic in
a fixed-offset timezone.  The source reads `new Date()` at call time; the
spec's design note (§9) abstracts this ambient clock read into an explicit
`now` parameter, and the model follows that: `now` is the value the clock
produced.
-/

namespace Srs

/-- Recall-quality rating; `SrsRating` in srs.ts. -/
inductive SrsRating where
  | again
  | hard
  | good
  | easy
deriving DecidableEq, Repr

/-- Scheduling state; `SrsState` in srs.ts.  All three fields are JS
numbers, modelled as rationals. -/
structure SrsState where
  intervalDays : ℚ
  ease : ℚ
  reps : ℚ
deriving DecidableEq, Repr

/-- Initial state; `initialSrsState` in srs.ts. -/
def initialSrsState : SrsState := { intervalDays := 0, ease := 5/2, reps := 0 }

/-- JS `Math.round` on finite values: round half toward positive infinity. -/
def jsRound (q : ℚ) : ℤ := ⌊q + 1/2⌋

/-- A JS `Date` value, split into a civil date and the time of day
(milliseconds since midnight), in a fixed-offset timezone. -/
structure JsDate where
  year : ℤ
  month : ℤ
  day : ℤ
  msOfDay : ℤ
deriving DecidableEq, Repr

/-- Day number of a civil date: days since 1970-01-01 in the proleptic
Gregorian calendar (Hinnant's `days_from_civil`). -/
def daysFromCivil (y m d : ℤ) : ℤ :=
  let y2 := y - (if m ≤ 2 then 1 else 0)
  let era := Int.fdiv y2 400
  let yoe := y2 - era * 400
  let doy := Int.fdiv (153 * (m + (if 2 < m then -3 else 9)) + 2) 5 + d - 1
  let doe := yoe * 365 + Int.fdiv yoe 4 - Int.fdiv yoe 100 + doy
  era * 146097 + doe - 719468

/-- Civil date of a day number (Hinnant's `civil_from_days`). -/
def civilFromDays (z : ℤ) : ℤ × ℤ × ℤ :=
  let z2 := z + 719468
  let era := Int.fdiv z2 146097
  let doe := z2 - era * 146097
  let yoe := Int.fdiv (doe - Int.fdiv doe 1460 + Int.fdiv doe 36524 - Int.fdiv doe 146096) 365
  let doy := doe - (365 * yoe + Int.fdiv yoe 4 - Int.fdiv yoe 100)
  let mp := Int.fdiv (5 * doy + 2) 153
  let d := doy - Int.fdiv (153 * mp + 2) 5 + 1
  let m := mp + (if mp < 10 then 3 else -9)
  (yoe + era * 400 + (if m ≤ 2 then 1 else 0), m, d)

/-- The `addDays` helper in srs.ts: `d.setDate(d.getDate() + days)`.
Setting the day-of-month past the end of the month rolls over month and
year by standard calendar rules, so the result is the civil date whose day
number is `days` greater, with the time of day preserved. -/
def addDays (date : JsDate) (days : ℤ) : JsDate :=
  let c := civilFromDays (daysFromCivil date.year date.month date.day + days)
  { year := c.1, month := c.2.1, day := c.2.2, msOfDay := date.msOfDay }

/-- Result of one transition; the anonymous `{ next, dueAt }` record
returned by `nextSrs` in srs.ts. -/
structure SrsResult where
  next : SrsState
  dueAt : JsDate
deriving DecidableEq, Repr

/-- The transition function `nextSrs` in srs.ts, with the call-time clock
reading passed as `now`.  Lines 22 and 24 normalize the stored counters
with `Math.max(0, Math.floor(...))`; line 23 keeps `ease` as stored when
it is a number (the non-number cases are modelled by `readEaseField`
below, since a rational is always a number). -/
def nextSrs (state : SrsState) (rating : SrsRating) (now : JsDate) : SrsResult :=
  let intervalDays0 : ℤ := max 0 ⌊state.intervalDays⌋
  let ease0 : ℚ := state.ease
  let reps0 : ℤ := max 0 ⌊state.reps⌋
  if rating = SrsRating.again then
    { next := { intervalDays := 1, ease := max (13/10) (ease0 - 1/5), reps := 0 },
      dueAt := addDays now 1 }
  else
    let reps1 : ℤ := reps0 + 1
    let intervalDays1 : ℤ :=
      if rating = SrsRating.hard then
        if intervalDays0 = 0 then 1 else max 1 (jsRound ((intervalDays0 : ℚ) * (6/5)))
      else if rating = SrsRating.good then
        if intervalDays0 = 0 then 1 else max 1 (jsRound ((intervalDays0 : ℚ) * (5/2)))
      else
        if intervalDays0 = 0 then 2 else max 2 (jsRound ((intervalDays0 : ℚ) * 3))
    let ease1 : ℚ :=
      if rating = SrsRating.hard then max (13/10) (ease0 - 3/20)
      else if rating = SrsRating.good then ease0
      else ease0 + 3/20
    { next := { intervalDays := (intervalDays1 : ℚ), ease := ease1, reps := (reps1 : ℚ) },
      dueAt := addDays now intervalDays1 }

/-- A raw JavaScript value as it may sit in a persisted scheduling field:
a finite number, `NaN`, an infinity, `null`, `undefined`, or a non-number
value whose numeric coercion is `NaN`. -/
inductive JsVal where
  | num (q : ℚ)
  | nan
  | posInf
  | negInf
  | nullv
  | undef
  | other
deriving DecidableEq, Repr

/-- JS nullish coalescing `v ?? d`. -/
def jsCoalesce (v d : JsVal) : JsVal :=
  match v with
  | JsVal.nullv => d
  | JsVal.undef => d
  | _ => v

/-- JS `Math.floor`: `NaN` and the infinities pass through; `null` coerces
to 0, `undefined` and non-numbers coerce to `NaN`. -/
def jsFloorVal : JsVal → JsVal
  | JsVal.num q => JsVal.num ⌊q⌋
  | JsVal.nan => JsVal.nan
  | JsVal.posInf => JsVal.posInf
  | JsVal.negInf => JsVal.negInf
  | JsVal.nullv => JsVal.num 0
  | JsVal.undef => JsVal.nan
  | JsVal.other => JsVal.nan

/-- JS `Math.max(0, v)`: `NaN` propagates, negative infinity clamps to 0. -/
def jsMax0 : JsVal → JsVal
  | JsVal.num q => JsVal.num (max 0 q)
  | JsVal.nan => JsVal.nan
  | JsVal.posInf => JsVal.posInf
  | JsVal.negInf => JsVal.num 0
  | JsVal.nullv => JsVal.num 0
  | JsVal.undef => JsVal.nan
  | JsVal.other => JsVal.nan

/-- JS `typeof v === 'number'`: true for `NaN` and the infinities too. -/
def isNumberType : JsVal → Bool
  | JsVal.num _ => true
  | JsVal.nan => true
  | JsVal.posInf => true
  | JsVal.negInf => true
  | _ => false

/-- Lines 22 and 24 of srs.ts on a raw stored value:
`Math.max(0, Math.floor(x ?? 0))`. -/
def readCountField (v : JsVal) : JsVal := jsMax0 (jsFloorVal (jsCoalesce v (JsVal.num 0)))

/-- Line 23 of srs.ts on a raw stored value:
`typeof ease === 'number' ? ease : 2.5`. -/
def readEaseField (v : JsVal) : JsVal :=
  if isNumberType v then v else JsVal.num (5/2)

/-- Folding the transition over a list of reviews, each with the clock
value at that review. -/
def runSrs (s : SrsState) (reviews : List (SrsRating × JsDate)) : SrsState :=
  reviews.foldl (fun acc p => (nextSrs acc p.1 p.2).next) s

/-- Interval-update formula written from the spec's words (§4.1, step 2),
one clause per rating; `round` is JS rounding. -/
def specInterval : SrsRating → ℤ → ℤ
  | SrsRating.again, _ => 1
  | SrsRating.hard, i => if i = 0 then 1 else max 1 (jsRound ((i : ℚ) * (6/5)))
  | SrsRating.good, i => if i = 0 then 1 else max 1 (jsRound ((i : ℚ) * (5/2)))
  | SrsRating.easy, i => if i = 0 then 2 else max 2 (jsRound ((i : ℚ) * 3))

/-- Ease-update formula written from the spec's words (§4.1). -/
def specEase : SrsRating → ℚ → ℚ
  | SrsRating.again, e => max (13/10) (e - 1/5)
  | SrsRating.hard, e => max (13/10) (e - 3/20)
  | SrsRating.good, e => e
  | SrsRating.easy, e => e + 3/20

/-- A concrete clock value used to instantiate witnesses. -/
def epochDate : JsDate := { year := 1970, month := 1, day := 1, msOfDay := 0 }

/-- The interval returned by a transition is the cast of an integer `k`
with `1 ≤ k` (`2 ≤ k` for `easy`), and `dueAt` is `now` advanced by that
same `k` days. -/
theorem interval_days_spec (s : SrsState) (r : SrsRating) (now : JsDate) :
    ∃ k : ℤ, (nextSrs s r now).next.intervalDays = (k : ℚ)
      ∧ (nextSrs s r now).dueAt = addDays now k
      ∧ 1 ≤ k ∧ (r = SrsRating.easy → 2 ≤ k) := by
  cases r
  case again =>
    exact ⟨1, rfl, rfl, le_refl 1, fun h => SrsRating.noConfusion h⟩
  case hard =>
    refine ⟨_, rfl, rfl, ?_, fun h => SrsRating.noConfusion h⟩
    by_cases h0 : (max 0 ⌊s.intervalDays⌋ : ℤ) = 0
    · simp [h0]
    · simp [h0]
  case good =>
    refine ⟨_, rfl, rfl, ?_, fun h => SrsRating.noConfusion h⟩
    by_cases h0 : (max 0 ⌊s.intervalDays⌋ : ℤ) = 0
    · simp [h0]
    · simp [h0]
  case easy =>
    refine ⟨_, rfl, rfl, ?_, fun _ => ?_⟩
    · by_cases h0 : (max 0 ⌊s.intervalDays⌋ : ℤ) = 0
      · simp [h0]
      · simp only [h0, if_false]
        exact le_trans (by norm_num) (le_max_left 2 _)
    · by_cases h0 : (max 0 ⌊s.intervalDays⌋ : ℤ) = 0
      · simp [h0]
      · simp only [h0, if_false]
        exact le_max_left 2 _

/-- One transition keeps the ease at or above the 1.3 floor. -/
theorem ease_floor_step (s : SrsState) (r : SrsRating) (now : JsDate)
    (h : (13/10 : ℚ) ≤ s.ease) : (13/10 : ℚ) ≤ (nextSrs s r now).next.ease := by
  cases r
  case again => exact le_max_left _ _
  case hard => exact le_max_left _ _
  case good => exact h
  case easy =>
    show (13/10 : ℚ) ≤ s.ease + 3/20
    linarith

/-- Any run of reviews keeps the ease at or above the 1.3 floor. -/
theorem ease_floor_run (reviews : List (SrsRating × JsDate)) :
    ∀ s : SrsState, (13/10 : ℚ) ≤ s.ease → (13/10 : ℚ) ≤ (runSrs s reviews).ease := by
  induction reviews with
  | nil => exact fun s h => h
  | cons p l ih => exact fun s h => ih _ (ease_floor_step s p.1 p.2 h)

/-- Normalization of a stored non-negative integer is the identity. -/
theorem norm_natCast (n : ℕ) : (max 0 ⌊((n : ℕ) : ℚ)⌋ : ℤ) = (n : ℤ) := by
  rw [Int.floor_natCast]
  exact max_eq_right (Int.natCast_nonneg n)

/-- C1: on a normalized state (`intervalDays` and `reps` non-negative
integers), `nextSrs` computes the `hard`, `good` and `easy` branches
exactly by the spec's interval and ease formulas (`specInterval`,
`specEase`): `hard` gives interval `1` from `0`, else
`max 1 (round (i * 1.2))`, and ease `max 1.3 (ease - 0.15)`; `good` gives
interval `1` from `0`, else `max 1 (round (i * 2.5))`, and ease unchanged;
`easy` gives interval `2` from `0`, else `max 2 (round (i * 3))`, and ease
`ease + 0.15` with no upper clamp. -/
theorem claim_C1 (i n : ℕ) (e : ℚ) (now : JsDate) :
    ((nextSrs ⟨(i : ℚ), e, (n : ℚ)⟩ SrsRating.hard now).next.intervalDays
        = ((specInterval SrsRating.hard (i : ℤ) : ℤ) : ℚ)
      ∧ (nextSrs ⟨(i : ℚ), e, (n : ℚ)⟩ SrsRating.hard now).next.ease
        = specEase SrsRating.hard e)
  ∧ ((nextSrs ⟨(i : ℚ), e, (n : ℚ)⟩ SrsRating.good now).next.intervalDays
        = ((specInterval SrsRating.good (i : ℤ) : ℤ) : ℚ)
      ∧ (nextSrs ⟨(i : ℚ), e, (n : ℚ)⟩ SrsRating.good now).next.ease
        = specEase SrsRating.good e)
  ∧ ((nextSrs ⟨(i : ℚ), e, (n : ℚ)⟩ SrsRating.easy now).next.intervalDays
        = ((specInterval SrsRating.easy (i : ℤ) : ℤ) : ℚ)
      ∧ (nextSrs ⟨(i : ℚ), e, (n : ℚ)⟩ SrsRating.easy now).next.ease
        = specEase SrsRating.easy e) := by
  refine ⟨⟨?_, rfl⟩, ⟨?_, rfl⟩, ⟨?_, rfl⟩⟩ <;>
    simp [nextSrs, specInterval, norm_natCast]

/-- C2: for every state and clock value, rating `again` resets `reps` to
0, sets `intervalDays` to 1 and drops the ease by 0.2 clamped at 1.3,
independent of the prior interval, reps or history. -/
theorem claim_C2 (s : SrsState) (now : JsDate) :
    (nextSrs s SrsRating.again now).next.reps = 0
  ∧ (nextSrs s SrsRating.again now).next.intervalDays = 1
  ∧ (nextSrs s SrsRating.again now).next.ease = max (13/10) (s.ease - 1/5) :=
  ⟨rfl, rfl, rfl⟩

/-- C3: on a normalized `reps` value, any non-`again` rating increments
`reps` by exactly 1 (in particular never below its input), and `again`
resets it to 0. -/
theorem claim_C3 (i e : ℚ) (n : ℕ) (r : SrsRating) (now : JsDate) :
    (r ≠ SrsRating.again → (nextSrs ⟨i, e, (n : ℚ)⟩ r now).next.reps = (n : ℚ) + 1)
  ∧ (r ≠ SrsRating.again → (n : ℚ) ≤ (nextSrs ⟨i, e, (n : ℚ)⟩ r now).next.reps)
  ∧ (nextSrs ⟨i, e, (n : ℚ)⟩ SrsRating.again now).next.reps = 0 := by
  have hreps : r ≠ SrsRating.again →
      (nextSrs ⟨i, e, (n : ℚ)⟩ r now).next.reps = (n : ℚ) + 1 := by
    intro hr
    cases r
    case again => exact absurd rfl hr
    all_goals
      show ((max 0 ⌊((n : ℕ) : ℚ)⌋ + 1 : ℤ) : ℚ) = (n : ℚ) + 1
    all_goals rw [norm_natCast]; push_cast; ring
  refine ⟨hreps, fun hr => ?_, rfl⟩
  rw [hreps hr]
  linarith

/-- C3 witness: from reps = 3, rating `good` yields reps = 4. -/
theorem claim_C3_witness :
    (nextSrs ⟨2, 5/2, (3 : ℕ)⟩ SrsRating.good epochDate).next.reps = ((3 : ℕ) : ℚ) + 1 :=
  (claim_C3 2 (5/2) 3 SrsRating.good epochDate).1 (by decide)

/-- C4: one transition from any state with ease at least 1.3 keeps the
ease at least 1.3, and any sequence of reviews from the initial state
keeps the ease at least 1.3. -/
theorem claim_C4 :
    (∀ (s : SrsState) (r : SrsRating) (now : JsDate),
        (13/10 : ℚ) ≤ s.ease → (13/10 : ℚ) ≤ (nextSrs s r now).next.ease)
  ∧ ∀ reviews : List (SrsRating × JsDate),
      (13/10 : ℚ) ≤ (runSrs initialSrsState reviews).ease :=
  ⟨ease_floor_step,
   fun reviews => ease_floor_run reviews initialSrsState (by norm_num [initialSrsState])⟩

/-- C4 witness: the ease floor holds after one `again` from the initial
state. -/
theorem claim_C4_witness :
    (13/10 : ℚ) ≤ (nextSrs { intervalDays := 0, ease := 5/2, reps := 0 }
      SrsRating.again epochDate).next.ease :=
  claim_C4.1 { intervalDays := 0, ease := 5/2, reps := 0 } SrsRating.again epochDate
    (by norm_num)

/-- C5 counterexample: a stored `NaN` has JS type `number`, so line 23
keeps a `NaN` ease instead of replacing it with 2.5, and a stored `NaN`
interval survives `Math.floor` and `Math.max(0, _)` unchanged instead of
being clamped to a non-negative integer. -/
theorem claim_C5_counterexample :
    readEaseField JsVal.nan = JsVal.nan ∧ readCountField JsVal.nan = JsVal.nan :=
  ⟨rfl, rfl⟩

/-- C5 as amended: finite stored `intervalDays`/`reps` are floored and
clamped to non-negative integers (negatives become 0) and null/undefined
read as 0, but `NaN` and positive infinity pass through (negative
infinity clamps to 0); stored ease is replaced by 2.5 only when it is not
of JS number type, while `NaN` and the infinities are kept; applying
`good` to `intervalDays = -5` produces `intervalDays = 1`. -/
theorem claim_C5_fixed :
    (∀ q : ℚ, readCountField (JsVal.num q) = JsVal.num (max 0 (⌊q⌋ : ℚ)))
  ∧ readCountField JsVal.nullv = JsVal.num 0
  ∧ readCountField JsVal.undef = JsVal.num 0
  ∧ readCountField JsVal.posInf = JsVal.posInf
  ∧ readCountField JsVal.negInf = JsVal.num 0
  ∧ (∀ q : ℚ, readEaseField (JsVal.num q) = JsVal.num q)
  ∧ readEaseField JsVal.posInf = JsVal.posInf
  ∧ readEaseField JsVal.negInf = JsVal.negInf
  ∧ readEaseField JsVal.nullv = JsVal.num (5/2)
  ∧ readEaseField JsVal.undef = JsVal.num (5/2)
  ∧ readEaseField JsVal.other = JsVal.num (5/2)
  ∧ ∀ (e p : ℚ) (now : JsDate),
      (nextSrs ⟨-5, e, p⟩ SrsRating.good now).next.intervalDays = 1 := by
  refine ⟨fun q => rfl, rfl, rfl, rfl, rfl, fun q => rfl, rfl, rfl, rfl, rfl, rfl,
    fun e p now => ?_⟩
  show ((if (max 0 ⌊(-5 : ℚ)⌋ : ℤ) = 0 then 1
      else max 1 (jsRound ((max 0 ⌊(-5 : ℚ)⌋ : ℤ) * (5/2))) : ℤ) : ℚ) = 1
  norm_num

/-- C6: for every state, rating and clock value, `dueAt` is `now` advanced
by exactly `nextState.intervalDays` calendar days; the advance preserves
the time of day and rolls months over by calendar rules, so Jan 30 plus 3
days is Feb 2. -/
theorem claim_C6 (s : SrsState) (r : SrsRating) (now : JsDate) (t : ℤ) :
    (∃ k : ℤ, (nextSrs s r now).next.intervalDays = (k : ℚ)
        ∧ (nextSrs s r now).dueAt = addDays now k)
  ∧ addDays ⟨2024, 1, 30, t⟩ 3 = ⟨2024, 2, 2, t⟩
  ∧ ∀ d : ℤ, (addDays now d).msOfDay = now.msOfDay := by
  refine ⟨?_, rfl, fun d => rfl⟩
  obtain ⟨k, h1, h2, -, -⟩ := interval_days_spec s r now
  exact ⟨k, h1, h2⟩

/-- C7: the exact transition results from the spec's test vectors,
including the exact ease values 2.65, 2.35, 2.3. -/
theorem claim_C7 (now : JsDate) :
    (nextSrs ⟨0, 5/2, 0⟩ SrsRating.good now).next = ⟨1, 5/2, 1⟩
  ∧ (nextSrs ⟨0, 5/2, 0⟩ SrsRating.easy now).next = ⟨2, 53/20, 1⟩
  ∧ (nextSrs ⟨0, 5/2, 0⟩ SrsRating.hard now).next = ⟨1, 47/20, 1⟩
  ∧ (nextSrs ⟨0, 5/2, 0⟩ SrsRating.again now).next = ⟨1, 23/10, 0⟩
  ∧ (nextSrs ⟨1, 5/2, 1⟩ SrsRating.good now).next = ⟨3, 5/2, 2⟩
  ∧ (nextSrs ⟨10, 5/2, 5⟩ SrsRating.easy now).next = ⟨30, 53/20, 6⟩ := by
  refine ⟨?_, ?_, ?_, ?_, ?_, ?_⟩ <;> simp [nextSrs, jsRound, max_def] <;> norm_num

/-- C8: for every state, rating and clock value, the returned
`intervalDays` is an integer at least 1, and at least 2 for `easy`. -/
theorem claim_C8 (s : SrsState) (r : SrsRating) (now : JsDate) :
    (∃ k : ℤ, (nextSrs s r now).next.intervalDays = (k : ℚ) ∧ 1 ≤ k)
  ∧ (∃ k : ℤ, (nextSrs s SrsRating.easy now).next.intervalDays = (k : ℚ) ∧ 2 ≤ k) := by
  obtain ⟨k1, hk1, -, h1, -⟩ := interval_days_spec s r now
  obtain ⟨k2, hk2, -, -, h2⟩ := interval_days_spec s SrsRating.easy now
  exact ⟨⟨k1, hk1, h1⟩, ⟨k2, hk2, h2 rfl⟩⟩

/-- C9: the transition is deterministic — two calls with identical state,
rating and clock value yield identical results. -/
theorem claim_C9 (s1 s2 : SrsState) (r1 r2 : SrsRating) (n1 n2 : JsDate)
    (hs : s1 = s2) (hr : r1 = r2) (hn : n1 = n2) :
    nextSrs s1 r1 n1 = nextSrs s2 r2 n2 := by
  subst hs
  subst hr
  subst hn
  rfl

/-- C9 witness: determinism at a concrete call. -/
theorem claim_C9_witness :
    nextSrs initialSrsState SrsRating.good epochDate
      = nextSrs initialSrsState SrsRating.good epochDate :=
  claim_C9 initialSrsState initialSrsState SrsRating.good SrsRating.good
    epochDate epochDate rfl rfl rfl

/-- C10: the ease field never influences the interval — two states that
agree on `intervalDays` and `reps` but differ in ease give the same next
interval and, for the same clock value, the same `dueAt`, for every
rating. -/
theorem claim_C10 (i p e1 e2 : ℚ) (r : SrsRating) (now : JsDate) :
    (nextSrs ⟨i, e1, p⟩ r now).next.intervalDays
      = (nextSrs ⟨i, e2, p⟩ r now).next.intervalDays
  ∧ (nextSrs ⟨i, e1, p⟩ r now).dueAt = (nextSrs ⟨i, e2, p⟩ r now).dueAt := by
  cases r <;> exact ⟨rfl, rfl⟩

end Srs
